import Mathlib

/-! Verification of the NovaFund `project-launch` contract
(`src/contracts/project-launch/src/lib.rs`): a shallow embedding of the
contract's storage, data model and its five public operations, together with
theorems settling the specification's claims about it. -/

namespace NovaFund

/-- Addresses (`soroban_sdk::Address`) are modelled as natural numbers. -/
abbrev Addr := Nat

/-- Status enumeration `ProjectStatus` from the source. -/
inductive ProjectStatus : Type where
  | Active
  | Completed
  | Failed
  | Cancelled
deriving DecidableEq

/-- Record `Project` from the source.  `Bytes` metadata is modelled as a `Nat`,
`i128` amounts as unbounded `Int` with explicit range checks wherever the
source arithmetic is width-sensitive, `u64` timestamps as `Nat`. -/
structure Project : Type where
  creator : Addr
  funding_goal : Int
  deadline : Nat
  token : Addr
  status : ProjectStatus
  metadata_hash : Nat
  total_raised : Int
  created_at : Nat
deriving DecidableEq

/-- Modelled from the spec: the `shared::constants` module is not among the
given sources, so the four configuration constants are kept abstract as a
parameter record (their concrete values never matter to the claims). -/
structure Consts : Type where
  MIN_FUNDING_GOAL : Int
  MIN_CONTRIBUTION : Int
  MIN_PROJECT_DURATION : Nat
  MAX_PROJECT_DURATION : Nat
deriving DecidableEq

/-- Modelled from the spec (error taxonomy, section 7) and the exact variants
the source uses: the `shared::errors::Error` enumeration is not among the
given sources. -/
inductive Error : Type where
  | AlreadyInitialized
  | InvalidFundingGoal
  | InvalidDeadline
  | ContributionTooLow
  | ProjectNotFound
  | ProjectNotActive
  | DeadlinePassed
  | InvalidProjectStatus
  | InvalidInput
deriving DecidableEq

/-- Smallest `i128` value. -/
def i128Min : Int := -170141183460469231731687303715884105728

/-- Largest `i128` value. -/
def i128Max : Int := 170141183460469231731687303715884105727

/-- Whether an unbounded integer fits in `i128`. -/
def inI128 (x : Int) : Bool := decide (i128Min ≤ x) && decide (x ≤ i128Max)

/-- Largest `u64` value; `u64::checked_add(1)` fails exactly here. -/
def u64Max : Nat := 18446744073709551615

/-- Lookup in an association list, modelling keyed storage reads. -/
def alGet {κ α : Type} [DecidableEq κ] : List (κ × α) → κ → Option α
  | [], _ => none
  | e :: t, k => if e.1 = k then some e.2 else alGet t k

/-- Lookup with a default, modelling `get(..).unwrap_or(d)`. -/
def alGetD {κ α : Type} [DecidableEq κ] (l : List (κ × α)) (k : κ) (d : α) : α :=
  (alGet l k).getD d

/-- Remove every entry with the given key. -/
def alRemove {κ α : Type} [DecidableEq κ] : List (κ × α) → κ → List (κ × α)
  | [], _ => []
  | e :: t, k => if e.1 = k then alRemove t k else e :: alRemove t k

/-- Keyed storage write (`set`): replace-or-insert map semantics. -/
def alSet {κ α : Type} [DecidableEq κ] (l : List (κ × α)) (k : κ) (v : α) :
    List (κ × α) :=
  (k, v) :: alRemove l k

/-- Keys of an association list. -/
def alKeys {κ α : Type} (l : List (κ × α)) : List κ := l.map Prod.fst

/-- Persistent contract storage: one field per `DataKey` family of the source
(`Admin`, `NextProjectId`, `Project`, `ContributionAmount`, `RefundProcessed`,
`ProjectFailureProcessed`). -/
structure State : Type where
  admin : Option Addr
  nextProjectId : Option Nat
  projects : List (Nat × Project)
  contribs : List ((Nat × Addr) × Int)
  refundProcessed : List (Nat × Addr)
  failureProcessed : List Nat
deriving DecidableEq

/-- Storage of a freshly deployed contract: every key absent. -/
def emptyState : State := ⟨none, none, [], [], [], []⟩

/-- Value of the `NextProjectId` counter as the source reads it,
`get(&DataKey::NextProjectId).unwrap_or(0)`. -/
def nextIdVal (s : State) : Nat := s.nextProjectId.getD 0

/-- A token-transfer invocation performed through the external token client. -/
structure Transfer : Type where
  src : Addr
  dst : Addr
  token : Addr
  amount : Int
deriving DecidableEq

/-- Events published by the contract (`shared::events` topics). -/
inductive Event : Type where
  | ProjectCreated (id : Nat) (creator : Addr) (goal : Int) (deadline : Nat) (token : Addr)
  | ContributionMade (id : Nat) (contributor : Addr) (amount total : Int)
  | ProjectFailed (id : Nat)
  | RefundIssued (id : Nat) (contributor : Addr) (amount : Int)
deriving DecidableEq

/-- Result of a public entry point: a returned `Result`, an error `Result`,
or a trap (`unwrap()` panic / fatal overflow), which in the Soroban execution
model reverts the whole call. -/
inductive Outcome (α : Type) : Type where
  | ok (a : α)
  | err (e : Error)
  | trap
deriving DecidableEq

/-- Full observable effect of one entry-point call: return value, resulting
persistent storage, the token transfers invoked, the events published and the
principals whose authorization (`require_auth`) was demanded.  On `err` and
`trap` outcomes the Soroban host discards all writes, so `state` is the input
state there and the transfer/event lists are empty. -/
structure Out (α : Type) : Type where
  ret : Outcome α
  state : State
  transfers : List Transfer
  events : List Event
  auths : List Addr
deriving DecidableEq

/-- Address of the contract itself (`env.current_contract_address()`), the
escrow custodian of contributed funds. -/
def contractAddress : Addr := 0

/-- Modelled from the spec: `shared::utils::verify_future_timestamp` is not
among the given sources; per the spec a deadline must be strictly greater than
the current time. -/
def verify_future_timestamp (now deadline : Nat) : Bool := decide (now < deadline)

/-- Entry point `initialize` of the source (named `initContract` here): sets
the admin and the `NextProjectId` counter to 0, failing if an admin is
already present. -/
def initContract (s : State) (admin : Addr) : Out Unit :=
  if s.admin.isSome then
    ⟨.err .AlreadyInitialized, s, [], [], []⟩
  else
    ⟨.ok (), { s with admin := some admin, nextProjectId := some 0 }, [], [],
      [admin]⟩

/-- Entry point `create_project` of the source.  `now` is the ledger
timestamp; `deadline - now` is `Nat` subtraction, which coincides with the
source's `saturating_sub`. -/
def create_project (C : Consts) (now : Nat) (s : State) (creator : Addr)
    (funding_goal : Int) (deadline : Nat) (token : Addr) (metadata_hash : Nat) :
    Out Nat :=
  if funding_goal < C.MIN_FUNDING_GOAL then
    ⟨.err .InvalidFundingGoal, s, [], [], []⟩
  else if deadline - now < C.MIN_PROJECT_DURATION ∨
      deadline - now > C.MAX_PROJECT_DURATION then
    ⟨.err .InvalidDeadline, s, [], [], []⟩
  else if verify_future_timestamp now deadline = false then
    ⟨.err .InvalidDeadline, s, [], [], []⟩
  else if nextIdVal s = u64Max then
    ⟨.trap, s, [], [], []⟩
  else
    ⟨.ok (nextIdVal s),
      { s with
          nextProjectId := some (nextIdVal s + 1),
          projects := alSet s.projects (nextIdVal s)
            ⟨creator, funding_goal, deadline, token, .Active, metadata_hash, 0, now⟩ },
      [],
      [.ProjectCreated (nextIdVal s) creator funding_goal deadline token],
      []⟩

/-- Entry point `contribute` of the source.  The update of `total_raised`
(line 165, `project.total_raised += amount`) is modelled from the spec as
fatal on `i128` overflow (a trap, never a wraparound), since the build
profile that fixes the overflow behaviour of `+=` is not among the given
sources and the spec declares overflow "fatal, never wraps"; the
per-contributor update is the source's explicit `checked_add(..).unwrap()`. -/
def contribute (C : Consts) (now : Nat) (s : State) (project_id : Nat)
    (contributor : Addr) (amount : Int) : Out Unit :=
  if amount < C.MIN_CONTRIBUTION then
    ⟨.err .ContributionTooLow, s, [], [], []⟩
  else
    match alGet s.projects project_id with
    | none => ⟨.err .ProjectNotFound, s, [], [], [contributor]⟩
    | some project =>
      if project.status ≠ .Active then
        ⟨.err .ProjectNotActive, s, [], [], [contributor]⟩
      else if project.deadline ≤ now then
        ⟨.err .DeadlinePassed, s, [], [], [contributor]⟩
      else if inI128 (project.total_raised + amount) = false then
        ⟨.trap, s, [], [], [contributor]⟩
      else if inI128 (alGetD s.contribs (project_id, contributor) 0 + amount)
          = false then
        ⟨.trap, s, [], [], [contributor]⟩
      else
        ⟨.ok (),
          { s with
              projects := alSet s.projects project_id
                { project with total_raised := project.total_raised + amount },
              contribs := alSet s.contribs (project_id, contributor)
                (alGetD s.contribs (project_id, contributor) 0 + amount) },
          [⟨contributor, contractAddress, project.token, amount⟩],
          [.ContributionMade project_id contributor amount
            (project.total_raised + amount)],
          [contributor]⟩

/-- Read-only entry point `get_project` of the source. -/
def get_project (s : State) (project_id : Nat) : Option Project :=
  alGet s.projects project_id

/-- Read-only entry point `get_user_contribution` of the source. -/
def get_user_contribution (s : State) (project_id : Nat) (contributor : Addr) :
    Int :=
  alGetD s.contribs (project_id, contributor) 0

/-- Read-only entry point `is_refunded` of the source. -/
def is_refunded (s : State) (project_id : Nat) (contributor : Addr) : Bool :=
  decide ((project_id, contributor) ∈ s.refundProcessed)

/-- Read-only entry point `is_failure_processed` of the source. -/
def is_failure_processed (s : State) (project_id : Nat) : Bool :=
  decide (project_id ∈ s.failureProcessed)

/-- Entry point `mark_project_failed` of the source: after the deadline,
decide the project's outcome once, marking it `Completed` when the goal was
reached and `Failed` (with an event) otherwise. -/
def mark_project_failed (now : Nat) (s : State) (project_id : Nat) : Out Unit :=
  match alGet s.projects project_id with
  | none => ⟨.err .ProjectNotFound, s, [], [], []⟩
  | some project =>
    if now ≤ project.deadline then
      ⟨.err .InvalidInput, s, [], [], []⟩
    else if project.status = .Failed ∨ project.status = .Completed then
      ⟨.err .InvalidProjectStatus, s, [], [], []⟩
    else if project_id ∈ s.failureProcessed then
      ⟨.err .InvalidProjectStatus, s, [], [], []⟩
    else if project.funding_goal ≤ project.total_raised then
      ⟨.ok (),
        { s with
            projects := alSet s.projects project_id
              { project with status := .Completed },
            failureProcessed := project_id :: s.failureProcessed },
        [], [], []⟩
    else
      ⟨.ok (),
        { s with
            projects := alSet s.projects project_id
              { project with status := .Failed },
            failureProcessed := project_id :: s.failureProcessed },
        [], [.ProjectFailed project_id], []⟩

/-- Entry point `refund_contributor` of the source: on a `Failed` project,
pay a contributor's full recorded cumulative contribution back exactly once. -/
def refund_contributor (s : State) (project_id : Nat) (contributor : Addr) :
    Out Int :=
  match alGet s.projects project_id with
  | none => ⟨.err .ProjectNotFound, s, [], [], []⟩
  | some project =>
    if project.status ≠ .Failed then
      ⟨.err .ProjectNotActive, s, [], [], []⟩
    else if (project_id, contributor) ∈ s.refundProcessed then
      ⟨.err .InvalidInput, s, [], [], []⟩
    else if alGetD s.contribs (project_id, contributor) 0 ≤ 0 then
      ⟨.err .InvalidInput, s, [], [], []⟩
    else
      ⟨.ok (alGetD s.contribs (project_id, contributor) 0),
        { s with refundProcessed := (project_id, contributor) :: s.refundProcessed },
        [⟨contractAddress, contributor, project.token,
          alGetD s.contribs (project_id, contributor) 0⟩],
        [.RefundIssued project_id contributor
          (alGetD s.contribs (project_id, contributor) 0)],
        []⟩

/-- One step of the system: any of the five mutating entry points, called at
an arbitrary ledger time with arbitrary arguments. -/
inductive Step (C : Consts) : State → State → Prop where
  | initStep (s : State) (admin : Addr) :
      Step C s (initContract s admin).state
  | createStep (now : Nat) (s : State) (creator : Addr) (funding_goal : Int)
      (deadline : Nat) (token : Addr) (metadata_hash : Nat) :
      Step C s (create_project C now s creator funding_goal deadline token
        metadata_hash).state
  | contributeStep (now : Nat) (s : State) (project_id : Nat)
      (contributor : Addr) (amount : Int) :
      Step C s (contribute C now s project_id contributor amount).state
  | markStep (now : Nat) (s : State) (project_id : Nat) :
      Step C s (mark_project_failed now s project_id).state
  | refundStep (s : State) (project_id : Nat) (contributor : Addr) :
      Step C s (refund_contributor s project_id contributor).state

/-- Reachability of one storage state from another through entry-point calls. -/
def Reachable (C : Consts) (s₀ s : State) : Prop :=
  Relation.ReflTransGen (Step C) s₀ s

/-- Storage right after a successful bootstrap (`initialize`) of a fresh
deployment. -/
def bootState (admin : Addr) : State := (initContract emptyState admin).state

/-- Sum, over all contributors, of the recorded cumulative contribution
amounts for one project: the right-hand side of the accounting invariant. -/
def projSum (pid : Nat) : List ((Nat × Addr) × Int) → Int
  | [] => 0
  | e :: t => (if e.1.1 = pid then e.2 else 0) + projSum pid t

/-- Concrete constants instantiating the abstract configuration in the
executable scenarios below: minimum goal 100, minimum contribution 10,
duration window [5, 1000]. -/
def C0 : Consts := ⟨100, 10, 5, 1000⟩

/-- Bootstrapped scenario, first step: a project (id 0, goal 100, deadline 10)
created at time 0 by principal 1 with token 7. -/
def witS1 : State := (create_project C0 0 (bootState 9) 1 100 10 7 0).state

/-- Bootstrapped scenario, second step: principal 2 contributes 50 at time 1. -/
def witS2 : State := (contribute C0 1 witS1 0 2 50).state

/-- Bootstrapped scenario, third step: settlement at time 11 (past the
deadline, 50 < 100) marks project 0 `Failed`. -/
def witS3 : State := (mark_project_failed 11 witS2 0).state

/-- Storage holding a project whose `total_raised` already sits at the `i128`
maximum, with a matching contribution record. -/
def bigS : State :=
  ⟨some 9, some 1, [(0, ⟨1, 100, 10, 7, .Active, 0, i128Max, 0⟩)],
    [((0, 2), i128Max)], [], []⟩

/-- Unbootstrapped trace, step 1: create project 0 on a fresh deployment
(no admin, counter absent). -/
def cexA1 : State := (create_project C0 0 emptyState 1 100 10 7 0).state

/-- Unbootstrapped trace, step 2: principal 2 contributes 50 to project 0. -/
def cexA2 : State := (contribute C0 1 cexA1 0 2 50).state

/-- Unbootstrapped trace, step 3: a late bootstrap resets the
`NextProjectId` counter to 0. -/
def cexA3 : State := (initContract cexA2 9).state

/-- Unbootstrapped trace, step 4: the next creation reuses id 0 and
overwrites the funded project with a fresh zero-total record. -/
def cexA4 : State := (create_project C0 0 cexA3 3 100 10 7 0).state

/-- Second unbootstrapped trace, step 2: settle project 0 at time 11, so its
status becomes `Failed` (0 < 100). -/
def cexB2 : State := (mark_project_failed 11 cexA1 0).state

/-- Second unbootstrapped trace, step 3: a late bootstrap resets the counter. -/
def cexB3 : State := (initContract cexB2 9).state

/-- Second unbootstrapped trace, step 4: creation reuses id 0 and overwrites
the `Failed` project with a fresh `Active` one. -/
def cexB4 : State := (create_project C0 0 cexB3 3 100 10 7 0).state

/-- Reachability invariant of the bootstrapped system: an admin is present,
stored project and contribution ids are below the counter, contribution keys
are distinct, every project's `total_raised` equals the contribution sum, and
no stored status is `Cancelled`. -/
structure Inv (s : State) : Prop where
  adminSome : s.admin.isSome = true
  projBound : ∀ e ∈ s.projects, e.1 < nextIdVal s
  contribBound : ∀ e ∈ s.contribs, e.1.1 < nextIdVal s
  nodupKeys : (alKeys s.contribs).Nodup
  totalSum : ∀ pid p, alGet s.projects pid = some p →
    p.total_raised = projSum pid s.contribs
  notCancelled : ∀ pid p, alGet s.projects pid = some p →
    p.status ≠ .Cancelled

/-- Reading a key right after writing it returns the written value. -/
theorem alGet_set_self {κ α : Type} [DecidableEq κ] (l : List (κ × α)) (k : κ)
    (v : α) : alGet (alSet l k v) k = some v := by
  simp [alSet, alGet]

/-- Removing one key leaves lookups of other keys unchanged. -/
theorem alGet_remove_ne {κ α : Type} [DecidableEq κ] (l : List (κ × α))
    {k k' : κ} (h : k' ≠ k) : alGet (alRemove l k) k' = alGet l k' := by
  induction l with
  | nil => rfl
  | cons e t ih =>
    simp only [alRemove, alGet]
    by_cases he : e.1 = k
    · rw [if_pos he, ih, if_neg (fun hk' => h (hk'.symm.trans he))]
    · rw [if_neg he]
      simp only [alGet, ih]

/-- Writing one key leaves lookups of other keys unchanged. -/
theorem alGet_set_ne {κ α : Type} [DecidableEq κ] (l : List (κ × α))
    {k k' : κ} (v : α) (h : k' ≠ k) : alGet (alSet l k v) k' = alGet l k' := by
  simp only [alSet, alGet]
  rw [if_neg (fun hh => h hh.symm), alGet_remove_ne l h]

/-- Removal yields a sublist. -/
theorem alRemove_sublist {κ α : Type} [DecidableEq κ] (l : List (κ × α))
    (k : κ) : List.Sublist (alRemove l k) l := by
  induction l with
  | nil => simp [alRemove]
  | cons e t ih =>
    simp only [alRemove]
    split
    · exact ih.cons e
    · exact ih.cons₂ e

/-- No entry with the removed key survives a removal. -/
theorem alRemove_key_ne {κ α : Type} [DecidableEq κ] (l : List (κ × α))
    (k : κ) : ∀ e ∈ alRemove l k, e.1 ≠ k := by
  induction l with
  | nil => simp [alRemove]
  | cons e t ih =>
    simp only [alRemove]
    split
    · exact ih
    · intro e' he'
      rcases List.mem_cons.mp he' with h | h
      · subst h; assumption
      · exact ih e' h

/-- Removing an absent key is the identity. -/
theorem alRemove_eq_self {κ α : Type} [DecidableEq κ] (l : List (κ × α))
    (k : κ) (h : ∀ e ∈ l, e.1 ≠ k) : alRemove l k = l := by
  induction l with
  | nil => rfl
  | cons e t ih =>
    simp only [alRemove]
    rw [if_neg (h e (List.mem_cons_self e t)),
      ih (fun e' he' => h e' (List.mem_cons_of_mem e he'))]

/-- Writes preserve distinctness of stored keys. -/
theorem alKeys_set_nodup {κ α : Type} [DecidableEq κ] (l : List (κ × α))
    (k : κ) (v : α) (h : (alKeys l).Nodup) : (alKeys (alSet l k v)).Nodup := by
  simp only [alSet, alKeys, List.map_cons]
  refine List.nodup_cons.mpr ⟨?_, ?_⟩
  · intro hk
    rcases List.mem_map.mp hk with ⟨e, he, hke⟩
    exact alRemove_key_ne l k e he hke
  · exact h.sublist ((alRemove_sublist l k).map Prod.fst)

/-- Entries after a write: the written pair or an original entry. -/
theorem mem_alSet {κ α : Type} [DecidableEq κ] {l : List (κ × α)} {k : κ}
    {v : α} {e : κ × α} (h : e ∈ alSet l k v) : e = (k, v) ∨ e ∈ l := by
  rcases List.mem_cons.mp h with h' | h'
  · exact Or.inl h'
  · exact Or.inr ((alRemove_sublist l k).subset h')

/-- Successful lookups come from entries of the list. -/
theorem alGet_mem {κ α : Type} [DecidableEq κ] {l : List (κ × α)} {k : κ}
    {v : α} (h : alGet l k = some v) : (k, v) ∈ l := by
  induction l with
  | nil => exact absurd h (by simp [alGet])
  | cons e t ih =>
    simp only [alGet] at h
    by_cases he : e.1 = k
    · rw [if_pos he] at h
      have hev : e = (k, v) := by
        obtain ⟨e1, e2⟩ := e
        simp_all
      rw [← hev]
      exact List.mem_cons_self e t
    · rw [if_neg he] at h
      exact List.mem_cons_of_mem e (ih h)

/-- Effect of a removal on a project's contribution sum, given distinct keys. -/
theorem projSum_remove (pid : Nat) (l : List ((Nat × Addr) × Int))
    (k : Nat × Addr) (h : (alKeys l).Nodup) :
    projSum pid (alRemove l k) =
      projSum pid l - (if k.1 = pid then alGetD l k 0 else 0) := by
  induction l with
  | nil => simp [alRemove, projSum, alGetD, alGet]
  | cons e t ih =>
    have h1 : e.1 ∉ alKeys t := (List.nodup_cons.mp h).1
    have h2 : (alKeys t).Nodup := (List.nodup_cons.mp h).2
    simp only [alRemove]
    by_cases he : e.1 = k
    · rw [if_pos he]
      have hrem : alRemove t k = t := by
        refine alRemove_eq_self t k (fun e' he' hk => h1 ?_)
        rw [he, ← hk]
        exact List.mem_map.mpr ⟨e', he', rfl⟩
      have hget : alGetD (e :: t) k 0 = e.2 := by
        simp [alGetD, alGet, he]
      rw [hrem, hget, ← he]
      simp only [projSum]
      split <;> omega
    · rw [if_neg he]
      have hget : alGetD (e :: t) k 0 = alGetD t k 0 := by
        simp [alGetD, alGet, he]
      simp only [projSum]
      rw [ih h2, hget]
      split <;> split <;> omega

/-- Effect of a write on a project's contribution sum, given distinct keys. -/
theorem projSum_set (pid : Nat) (l : List ((Nat × Addr) × Int))
    (k : Nat × Addr) (v : Int) (h : (alKeys l).Nodup) :
    projSum pid (alSet l k v) =
      projSum pid l + (if k.1 = pid then v - alGetD l k 0 else 0) := by
  simp only [alSet, projSum]
  rw [projSum_remove pid l k h]
  split <;> omega

/-- A project none of whose ids occurs among the contribution keys has
contribution sum zero. -/
theorem projSum_eq_zero (n : Nat) (l : List ((Nat × Addr) × Int))
    (h : ∀ e ∈ l, e.1.1 ≠ n) : projSum n l = 0 := by
  induction l with
  | nil => rfl
  | cons e t ih =>
    simp only [projSum]
    rw [if_neg (h e (List.mem_cons_self e t)),
      ih (fun e' he' => h e' (List.mem_cons_of_mem e he'))]
    omega

/-- Shape of `initContract`: either nothing changes or admin and counter are
set on a previously admin-free state. -/
theorem initContract_state (s : State) (a : Addr) :
    (initContract s a).state = s ∨
    (s.admin = none ∧ (initContract s a).state =
      { s with admin := some a, nextProjectId := some 0 }) := by
  unfold initContract
  split
  · exact Or.inl rfl
  · next h => exact Or.inr ⟨Option.not_isSome_iff_eq_none.mp (by simpa using h), rfl⟩

/-- Shape of `create_project`: either nothing changes or the counter advances
by one and a fresh `Active` project with zero total is stored under the old
counter value. -/
theorem create_project_state (C : Consts) (now : Nat) (s : State) (cr : Addr)
    (g : Int) (dl : Nat) (tok : Addr) (md : Nat) :
    (create_project C now s cr g dl tok md).state = s ∨
    (create_project C now s cr g dl tok md).state =
      { s with
          nextProjectId := some (nextIdVal s + 1),
          projects := alSet s.projects (nextIdVal s)
            ⟨cr, g, dl, tok, .Active, md, 0, now⟩ } := by
  unfold create_project
  split
  · exact Or.inl rfl
  · split
    · exact Or.inl rfl
    · split
      · exact Or.inl rfl
      · split
        · exact Or.inl rfl
        · exact Or.inr rfl

/-- Shape of `contribute`: either nothing changes, or the project existed and
was `Active` before its deadline, and both its total and the contributor's
cumulative record grow by the contributed amount. -/
theorem contribute_state (C : Consts) (now : Nat) (s : State) (pid : Nat)
    (c : Addr) (amt : Int) :
    (contribute C now s pid c amt).state = s ∨
    ∃ p, alGet s.projects pid = some p ∧ p.status = .Active ∧
      now < p.deadline ∧
      (contribute C now s pid c amt).state =
        { s with
            projects := alSet s.projects pid
              { p with total_raised := p.total_raised + amt },
            contribs := alSet s.contribs (pid, c)
              (alGetD s.contribs (pid, c) 0 + amt) } := by
  unfold contribute
  split
  · exact Or.inl rfl
  · split
    · exact Or.inl rfl
    · next p hp =>
      split
      · exact Or.inl rfl
      · next hA =>
        split
        · exact Or.inl rfl
        · next hd =>
          split
          · exact Or.inl rfl
          · split
            · exact Or.inl rfl
            · exact Or.inr ⟨p, hp, not_ne_iff.mp hA, Nat.lt_of_not_le hd, rfl⟩

/-- Shape of `mark_project_failed`: either nothing changes, or the project
existed past its deadline, in a non-terminal status with the failure marker
absent, and its status becomes `Completed` or `Failed` by goal comparison
while the failure marker is set. -/
theorem mark_state (now : Nat) (s : State) (pid : Nat) :
    (mark_project_failed now s pid).state = s ∨
    ∃ p, alGet s.projects pid = some p ∧ p.deadline < now ∧
      p.status ≠ .Failed ∧ p.status ≠ .Completed ∧ pid ∉ s.failureProcessed ∧
      (mark_project_failed now s pid).state =
        { s with
            projects := alSet s.projects pid
              { p with status :=
                  if p.funding_goal ≤ p.total_raised then .Completed
                  else .Failed },
            failureProcessed := pid :: s.failureProcessed } := by
  unfold mark_project_failed
  split
  · exact Or.inl rfl
  · next p hp =>
    split
    · exact Or.inl rfl
    · next hd =>
      split
      · exact Or.inl rfl
      · next hst =>
        rw [not_or] at hst
        split
        · exact Or.inl rfl
        · next hmk =>
          split
          · next hg =>
            exact Or.inr ⟨p, hp, Nat.lt_of_not_le hd, hst.1, hst.2, hmk,
              by rw [if_pos hg]⟩
          · next hg =>
            exact Or.inr ⟨p, hp, Nat.lt_of_not_le hd, hst.1, hst.2, hmk,
              by rw [if_neg hg]⟩

/-- Shape of `refund_contributor`: either nothing changes or exactly the
refund-issued marker for the pair is added. -/
theorem refund_state (s : State) (pid : Nat) (c : Addr) :
    (refund_contributor s pid c).state = s ∨
    ((pid, c) ∉ s.refundProcessed ∧
      (refund_contributor s pid c).state =
        { s with refundProcessed := (pid, c) :: s.refundProcessed }) := by
  unfold refund_contributor
  split
  · exact Or.inl rfl
  · split
    · exact Or.inl rfl
    · split
      · exact Or.inl rfl
      · next hm =>
        split
        · exact Or.inl rfl
        · exact Or.inr ⟨hm, rfl⟩

/-- The invariant holds right after bootstrap. -/
theorem inv_boot (a : Addr) : Inv (bootState a) := by
  refine ⟨rfl, ?_, ?_, ?_, ?_, ?_⟩ <;>
    simp [bootState, initContract, emptyState, alGet, alKeys]

/-- `initContract` preserves the invariant (on an initialized state it is a
rejected re-initialization). -/
theorem inv_initContract {s : State} (a : Addr) (h : Inv s) :
    Inv (initContract s a).state := by
  unfold initContract
  rw [if_pos h.adminSome]
  exact h

/-- `create_project` preserves the invariant. -/
theorem inv_create {s : State} (C : Consts) (now : Nat) (cr : Addr) (g : Int)
    (dl : Nat) (tok : Addr) (md : Nat) (h : Inv s) :
    Inv (create_project C now s cr g dl tok md).state := by
  rcases create_project_state C now s cr g dl tok md with heq | heq
  · rw [heq]; exact h
  · rw [heq]
    refine ⟨h.adminSome, ?_, ?_, h.nodupKeys, ?_, ?_⟩
    · intro e he
      rcases mem_alSet he with rfl | he'
      · exact Nat.lt_succ_self _
      · exact Nat.lt_succ_of_lt (h.projBound e he')
    · intro e he
      exact Nat.lt_succ_of_lt (h.contribBound e he)
    · intro pid p hp
      by_cases hpe : pid = nextIdVal s
      · subst hpe
        rw [alGet_set_self] at hp
        injection hp with hh
        subst hh
        show (0 : Int) = projSum (nextIdVal s) s.contribs
        rw [projSum_eq_zero (nextIdVal s) s.contribs
          (fun e he => Nat.ne_of_lt (h.contribBound e he))]
      · rw [alGet_set_ne _ _ hpe] at hp
        exact h.totalSum pid p hp
    · intro pid p hp
      by_cases hpe : pid = nextIdVal s
      · subst hpe
        rw [alGet_set_self] at hp
        injection hp with hh
        subst hh
        simp
      · rw [alGet_set_ne _ _ hpe] at hp
        exact h.notCancelled pid p hp

/-- `contribute` preserves the invariant; in particular the accounting
equality survives because total and per-contributor record grow together. -/
theorem inv_contribute {s : State} (C : Consts) (now : Nat) (pid : Nat)
    (c : Addr) (amt : Int) (h : Inv s) :
    Inv (contribute C now s pid c amt).state := by
  rcases contribute_state C now s pid c amt with heq | ⟨p, hp, hA, hd, heq⟩
  · rw [heq]; exact h
  · rw [heq]
    have hpidlt : pid < nextIdVal s := h.projBound (pid, p) (alGet_mem hp)
    refine ⟨h.adminSome, ?_, ?_, ?_, ?_, ?_⟩
    · intro e he
      rcases mem_alSet he with rfl | he'
      · exact hpidlt
      · exact h.projBound e he'
    · intro e he
      rcases mem_alSet he with rfl | he'
      · exact hpidlt
      · exact h.contribBound e he'
    · exact alKeys_set_nodup _ _ _ h.nodupKeys
    · intro pid' p'' hp''
      by_cases hpe : pid' = pid
      · subst hpe
        rw [alGet_set_self] at hp''
        injection hp'' with hh
        subst hh
        rw [projSum_set _ _ _ _ h.nodupKeys, if_pos rfl]
        have ht := h.totalSum pid' p hp
        show p.total_raised + amt = _
        omega
      · rw [alGet_set_ne _ _ hpe] at hp''
        rw [projSum_set _ _ _ _ h.nodupKeys,
          if_neg (fun hh => hpe (by simpa using hh.symm))]
        have := h.totalSum pid' p'' hp''
        omega
    · intro pid' p'' hp''
      by_cases hpe : pid' = pid
      · subst hpe
        rw [alGet_set_self] at hp''
        injection hp'' with hh
        subst hh
        show p.status ≠ _
        rw [hA]
        simp
      · rw [alGet_set_ne _ _ hpe] at hp''
        exact h.notCancelled pid' p'' hp''

/-- `mark_project_failed` preserves the invariant: only the status field of
one project changes, never its total. -/
theorem inv_mark {s : State} (now : Nat) (pid : Nat) (h : Inv s) :
    Inv (mark_project_failed now s pid).state := by
  rcases mark_state now s pid with heq | ⟨p, hp, hd, hf, hc, hmk, heq⟩
  · rw [heq]; exact h
  · rw [heq]
    have hpidlt : pid < nextIdVal s := h.projBound (pid, p) (alGet_mem hp)
    refine ⟨h.adminSome, ?_, h.contribBound, h.nodupKeys, ?_, ?_⟩
    · intro e he
      rcases mem_alSet he with rfl | he'
      · exact hpidlt
      · exact h.projBound e he'
    · intro pid' p'' hp''
      by_cases hpe : pid' = pid
      · subst hpe
        rw [alGet_set_self] at hp''
        injection hp'' with hh
        subst hh
        exact h.totalSum pid' p hp
      · rw [alGet_set_ne _ _ hpe] at hp''
        exact h.totalSum pid' p'' hp''
    · intro pid' p'' hp''
      by_cases hpe : pid' = pid
      · subst hpe
        rw [alGet_set_self] at hp''
        injection hp'' with hh
        subst hh
        show (if p.funding_goal ≤ p.total_raised then ProjectStatus.Completed
          else ProjectStatus.Failed) ≠ _
        split <;> simp
      · rw [alGet_set_ne _ _ hpe] at hp''
        exact h.notCancelled pid' p'' hp''

/-- `refund_contributor` preserves the invariant: it touches no field the
invariant mentions. -/
theorem inv_refund {s : State} (pid : Nat) (c : Addr) (h : Inv s) :
    Inv (refund_contributor s pid c).state := by
  rcases refund_state s pid c with heq | ⟨_, heq⟩
  · rw [heq]; exact h
  · rw [heq]
    exact ⟨h.adminSome, h.projBound, h.contribBound, h.nodupKeys, h.totalSum,
      h.notCancelled⟩

/-- One step preserves the invariant. -/
theorem inv_step {C : Consts} {s s' : State} (h : Inv s) (hs : Step C s s') :
    Inv s' := by
  cases hs with
  | initStep s a => exact inv_initContract a h
  | createStep now s cr g dl tok md => exact inv_create C now cr g dl tok md h
  | contributeStep now s pid c amt => exact inv_contribute C now pid c amt h
  | markStep now s pid => exact inv_mark now pid h
  | refundStep s pid c => exact inv_refund pid c h

/-- The invariant propagates along any reachable execution. -/
theorem inv_reachable {C : Consts} {s₀ s : State} (h0 : Inv s₀)
    (h : Reachable C s₀ s) : Inv s := by
  induction h with
  | refl => exact h0
  | tail _ hstep ih => exact inv_step ih hstep

/-- Full output of `mark_project_failed` when every guard passes: status is
decided by goal comparison, a failure event is emitted only in the `Failed`
case, the project is persisted and the failure marker is set. -/
theorem mark_success_char {s : State} {pid : Nat} {p : Project} (now : Nat)
    (hp : alGet s.projects pid = some p) (hd : p.deadline < now)
    (hf : p.status ≠ .Failed) (hcpl : p.status ≠ .Completed)
    (hmk : pid ∉ s.failureProcessed) :
    mark_project_failed now s pid =
      ⟨.ok (),
        { s with
            projects := alSet s.projects pid
              { p with status :=
                  if p.funding_goal ≤ p.total_raised then .Completed
                  else .Failed },
            failureProcessed := pid :: s.failureProcessed },
        [],
        if p.funding_goal ≤ p.total_raised then [] else [.ProjectFailed pid],
        []⟩ := by
  unfold mark_project_failed
  rw [hp]
  simp only [if_neg (Nat.not_le.mpr hd), if_neg (show ¬(p.status = ProjectStatus.Failed ∨ p.status = ProjectStatus.Completed) by rw [not_or]; exact ⟨hf, hcpl⟩),
    if_neg hmk]
  split
  · rfl
  · rfl

/-- Output of `mark_project_failed` before the deadline: `InvalidInput`,
nothing written. -/
theorem mark_early_char {s : State} {pid : Nat} {p : Project} (now : Nat)
    (hp : alGet s.projects pid = some p) (hd : now ≤ p.deadline) :
    mark_project_failed now s pid = ⟨.err .InvalidInput, s, [], [], []⟩ := by
  unfold mark_project_failed
  rw [hp]
  simp only [if_pos hd]

/-- Output of `mark_project_failed` on an already terminal project past its
deadline: the conflict error `InvalidProjectStatus`, nothing written. -/
theorem mark_terminal_char {s : State} {pid : Nat} {p : Project} (now : Nat)
    (hp : alGet s.projects pid = some p) (hd : p.deadline < now)
    (ht : p.status = .Failed ∨ p.status = .Completed) :
    mark_project_failed now s pid =
      ⟨.err .InvalidProjectStatus, s, [], [], []⟩ := by
  unfold mark_project_failed
  rw [hp]
  simp only [if_neg (Nat.not_le.mpr hd), if_pos ht]

/-- Full output of a successful `refund_contributor`: the whole recorded
cumulative contribution flows from the contract back to the contributor, the
refund marker is set and a refund event is emitted. -/
theorem refund_success_char {s : State} {pid : Nat} {p : Project} {c : Addr}
    (hp : alGet s.projects pid = some p) (hF : p.status = .Failed)
    (hm : (pid, c) ∉ s.refundProcessed)
    (hc : 0 < alGetD s.contribs (pid, c) 0) :
    refund_contributor s pid c =
      ⟨.ok (alGetD s.contribs (pid, c) 0),
        { s with refundProcessed := (pid, c) :: s.refundProcessed },
        [⟨contractAddress, c, p.token, alGetD s.contribs (pid, c) 0⟩],
        [.RefundIssued pid c (alGetD s.contribs (pid, c) 0)],
        []⟩ := by
  unfold refund_contributor
  rw [hp]
  simp only [if_neg (show ¬p.status ≠ ProjectStatus.Failed from fun hh => hh hF), if_neg hm,
    if_neg (Int.not_le.mpr hc)]

/-- Output of `refund_contributor` when the refund marker is already present
on a `Failed` project: the conflict error `InvalidInput`, nothing written, no
transfer invoked. -/
theorem refund_again_char {s : State} {pid : Nat} {p : Project} {c : Addr}
    (hp : alGet s.projects pid = some p) (hF : p.status = .Failed)
    (hm : (pid, c) ∈ s.refundProcessed) :
    refund_contributor s pid c = ⟨.err .InvalidInput, s, [], [], []⟩ := by
  unfold refund_contributor
  rw [hp]
  simp only [if_neg (show ¬p.status ≠ ProjectStatus.Failed from fun hh => hh hF), if_pos hm]

/-- Refund markers are never erased by any entry point. -/
theorem refundMarker_step {C : Consts} {s s' : State} {k : Nat × Addr}
    (hk : k ∈ s.refundProcessed) (hs : Step C s s') :
    k ∈ s'.refundProcessed := by
  cases hs with
  | initStep s a =>
    rcases initContract_state s a with heq | ⟨_, heq⟩ <;> rw [heq] <;> exact hk
  | createStep now s cr g dl tok md =>
    rcases create_project_state C now s cr g dl tok md with heq | heq <;>
      rw [heq] <;> exact hk
  | contributeStep now s pid c amt =>
    rcases contribute_state C now s pid c amt with heq | ⟨p, _, _, _, heq⟩ <;>
      rw [heq] <;> exact hk
  | markStep now s pid =>
    rcases mark_state now s pid with heq | ⟨p, _, _, _, _, _, heq⟩ <;>
      rw [heq] <;> exact hk
  | refundStep s pid c =>
    rcases refund_state s pid c with heq | ⟨_, heq⟩ <;> rw [heq]
    · exact hk
    · exact List.mem_cons_of_mem _ hk

/-- Refund markers persist along any execution. -/
theorem refundMarker_reach {C : Consts} {s s' : State} {k : Nat × Addr}
    (hk : k ∈ s.refundProcessed) (hs : Reachable C s s') :
    k ∈ s'.refundProcessed := by
  induction hs with
  | refl => exact hk
  | tail _ hstep ih => exact refundMarker_step ih hstep

/-- Failure-processed markers are never erased by any entry point. -/
theorem failureMarker_step {C : Consts} {s s' : State} {pid : Nat}
    (hk : pid ∈ s.failureProcessed) (hs : Step C s s') :
    pid ∈ s'.failureProcessed := by
  cases hs with
  | initStep s a =>
    rcases initContract_state s a with heq | ⟨_, heq⟩ <;> rw [heq] <;> exact hk
  | createStep now s cr g dl tok md =>
    rcases create_project_state C now s cr g dl tok md with heq | heq <;>
      rw [heq] <;> exact hk
  | contributeStep now s pid' c amt =>
    rcases contribute_state C now s pid' c amt with heq | ⟨p, _, _, _, heq⟩ <;>
      rw [heq] <;> exact hk
  | markStep now s pid' =>
    rcases mark_state now s pid' with heq | ⟨p, _, _, _, _, _, heq⟩ <;>
      rw [heq]
    · exact hk
    · exact List.mem_cons_of_mem _ hk
  | refundStep s pid' c =>
    rcases refund_state s pid' c with heq | ⟨_, heq⟩ <;> rw [heq] <;> exact hk

/-- Failure-processed markers persist along any execution. -/
theorem failureMarker_reach {C : Consts} {s s' : State} {pid : Nat}
    (hk : pid ∈ s.failureProcessed) (hs : Reachable C s s') :
    pid ∈ s'.failureProcessed := by
  induction hs with
  | refl => exact hk
  | tail _ hstep ih => exact failureMarker_step ih hstep

/-- Under the invariant, the record of a `Failed` project survives any single
step completely unchanged. -/
theorem failedProject_step {C : Consts} {s s' : State} {pid : Nat}
    {p : Project} (hInv : Inv s) (hp : alGet s.projects pid = some p)
    (hF : p.status = .Failed) (hs : Step C s s') :
    alGet s'.projects pid = some p := by
  have hlt : pid < nextIdVal s := hInv.projBound (pid, p) (alGet_mem hp)
  cases hs with
  | initStep s a =>
    unfold initContract
    rw [if_pos hInv.adminSome]
    exact hp
  | createStep now s cr g dl tok md =>
    rcases create_project_state C now s cr g dl tok md with heq | heq <;>
      rw [heq]
    · exact hp
    · show alGet (alSet s.projects (nextIdVal s) _) pid = some p
      rw [alGet_set_ne _ _ (Nat.ne_of_lt hlt), hp]
  | contributeStep now s pid' c amt =>
    rcases contribute_state C now s pid' c amt with heq | ⟨q, hq, hqA, _, heq⟩ <;>
      rw [heq]
    · exact hp
    · show alGet (alSet s.projects pid' _) pid = some p
      by_cases hpe : pid = pid'
      · subst hpe
        rw [hp] at hq
        injection hq with hh
        rw [← hh] at hqA
        rw [hF] at hqA
        exact absurd hqA (by simp)
      · rw [alGet_set_ne _ _ hpe, hp]
  | markStep now s pid' =>
    rcases mark_state now s pid' with heq | ⟨q, hq, _, hqF, _, _, heq⟩ <;>
      rw [heq]
    · exact hp
    · show alGet (alSet s.projects pid' _) pid = some p
      by_cases hpe : pid = pid'
      · subst hpe
        rw [hp] at hq
        injection hq with hh
        rw [← hh] at hqF
        exact absurd hF hqF
      · rw [alGet_set_ne _ _ hpe, hp]
  | refundStep s pid' c =>
    rcases refund_state s pid' c with heq | ⟨_, heq⟩ <;> rw [heq] <;> exact hp

/-- Under the invariant, the record of a `Failed` project survives any
execution completely unchanged. -/
theorem failedProject_reach {C : Consts} {s s' : State} {pid : Nat}
    {p : Project} (hInv : Inv s) (hp : alGet s.projects pid = some p)
    (hF : p.status = .Failed) (hs : Reachable C s s') :
    alGet s'.projects pid = some p := by
  induction hs with
  | refl => exact hp
  | tail hab hstep ih =>
    exact failedProject_step (inv_reachable hInv hab) ih hF hstep

/-- A successful `mark_project_failed` call implies every guard passed. -/
theorem mark_ok_elim {now : Nat} {s : State} {pid : Nat}
    (h : (mark_project_failed now s pid).ret = .ok ()) :
    ∃ p, alGet s.projects pid = some p ∧ p.deadline < now ∧
      p.status ≠ .Failed ∧ p.status ≠ .Completed ∧ pid ∉ s.failureProcessed := by
  unfold mark_project_failed at h
  split at h
  · simp at h
  · next p hp =>
    split at h
    · simp at h
    · next hd =>
      split at h
      · simp at h
      · next hst =>
        split at h
        · simp at h
        · next hmk =>
          rw [not_or] at hst
          exact ⟨p, hp, Nat.lt_of_not_le hd, hst.1, hst.2, hmk⟩

/-- C3: called on an existing project strictly past its deadline, in a
non-terminal status and with the failure marker absent, `mark_project_failed`
completes the project when the goal is reached and fails it otherwise,
emitting a failure event only in the `Failed` case, persisting the project
and setting the marker in both outcomes; at or before the deadline it returns
`InvalidInput` and changes nothing. -/
theorem mark_project_failed_spec (now : Nat) (s : State) (pid : Nat)
    (p : Project) (hp : alGet s.projects pid = some p) :
    (now ≤ p.deadline →
      (mark_project_failed now s pid).ret = .err .InvalidInput ∧
      (mark_project_failed now s pid).state = s) ∧
    (p.deadline < now → p.status ≠ .Failed → p.status ≠ .Completed →
      pid ∉ s.failureProcessed →
      (mark_project_failed now s pid).ret = .ok () ∧
      alGet (mark_project_failed now s pid).state.projects pid =
        some { p with status :=
          if p.funding_goal ≤ p.total_raised then .Completed else .Failed } ∧
      (mark_project_failed now s pid).events =
        (if p.funding_goal ≤ p.total_raised then [] else [.ProjectFailed pid]) ∧
      pid ∈ (mark_project_failed now s pid).state.failureProcessed) := by
  constructor
  · intro hd
    rw [mark_early_char now hp hd]
    exact ⟨rfl, rfl⟩
  · intro hd hf hcpl hmk
    rw [mark_success_char now hp hd hf hcpl hmk]
    exact ⟨rfl, alGet_set_self _ _ _, rfl, List.mem_cons_self _ _⟩

/-- C4: after a successful settlement, a second `mark_project_failed` call at
any later (clock-monotonic) time returns the conflict error
`InvalidProjectStatus` and leaves the state, hence the decided status and the
total, exactly as the first call left them. -/
theorem mark_project_failed_second_call (now₁ now₂ : Nat) (s : State)
    (pid : Nat) (h1 : (mark_project_failed now₁ s pid).ret = .ok ())
    (h12 : now₁ ≤ now₂) :
    (mark_project_failed now₂ (mark_project_failed now₁ s pid).state pid).ret
        = .err .InvalidProjectStatus ∧
    (mark_project_failed now₂ (mark_project_failed now₁ s pid).state pid).state
        = (mark_project_failed now₁ s pid).state := by
  obtain ⟨p, hp, hd, hf, hcpl, hmk⟩ := mark_ok_elim h1
  rw [mark_success_char now₁ hp hd hf hcpl hmk]
  dsimp only
  have hp1 : alGet
      ({ s with
          projects := alSet s.projects pid
            { p with status :=
                if p.funding_goal ≤ p.total_raised then ProjectStatus.Completed
                else ProjectStatus.Failed },
          failureProcessed := pid :: s.failureProcessed } : State).projects pid
      = some { p with status :=
          if p.funding_goal ≤ p.total_raised then ProjectStatus.Completed
          else ProjectStatus.Failed } :=
    alGet_set_self _ _ _
  have hterm :
      ({ p with status :=
          if p.funding_goal ≤ p.total_raised then ProjectStatus.Completed
          else ProjectStatus.Failed } : Project).status = .Failed ∨
      ({ p with status :=
          if p.funding_goal ≤ p.total_raised then ProjectStatus.Completed
          else ProjectStatus.Failed } : Project).status = .Completed := by
    show (if p.funding_goal ≤ p.total_raised then ProjectStatus.Completed
      else ProjectStatus.Failed) = _ ∨ _
    split
    · exact Or.inr rfl
    · exact Or.inl rfl
  have hd2 : ({ p with status :=
      if p.funding_goal ≤ p.total_raised then ProjectStatus.Completed
      else ProjectStatus.Failed } : Project).deadline < now₂ :=
    Nat.lt_of_lt_of_le hd h12
  rw [mark_terminal_char now₂ hp1 hd2 hterm]
  exact ⟨rfl, rfl⟩

/-- C6 counterexample: with a maximum duration of 1000, a creation whose
deadline lies exactly `MAX_PROJECT_DURATION` after the current time is
accepted (the source checks `duration > MAX`), not rejected with
`InvalidDeadline` as the claim states. -/
theorem create_project_max_duration_accepted :
    1000 - 0 = C0.MAX_PROJECT_DURATION ∧
    (create_project C0 0 (bootState 9) 1 100 1000 7 0).ret = .ok 0 := by
  constructor
  · rfl
  · decide

/-- C6 amended: for a goal passing validation and a non-saturated counter,
creation succeeds exactly when `deadline - now` (saturating) lies in the
closed window `[MIN_PROJECT_DURATION, MAX_PROJECT_DURATION]` and the deadline
is strictly in the future — in particular `deadline - now =
MAX_PROJECT_DURATION` is accepted; moreover a deadline not strictly in the
future is always rejected (the call returns the error `InvalidDeadline`). -/
theorem create_project_window (C : Consts) (now : Nat) (s : State) (cr : Addr)
    (g : Int) (dl : Nat) (tok : Addr) (md : Nat)
    (hg : C.MIN_FUNDING_GOAL ≤ g) (hid : nextIdVal s < u64Max) :
    ((create_project C now s cr g dl tok md).ret = .ok (nextIdVal s) ↔
      (C.MIN_PROJECT_DURATION ≤ dl - now ∧ dl - now ≤ C.MAX_PROJECT_DURATION ∧
        now < dl)) ∧
    (dl ≤ now →
      (create_project C now s cr g dl tok md).ret = .err .InvalidDeadline) := by
  constructor
  · unfold create_project
    rw [if_neg (Int.not_lt.mpr hg)]
    by_cases h2 : dl - now < C.MIN_PROJECT_DURATION ∨
        dl - now > C.MAX_PROJECT_DURATION
    · rw [if_pos h2]
      constructor
      · intro hh
        exact absurd hh (by simp)
      · intro ⟨ha, hb, _⟩
        rcases h2 with h2 | h2 <;> omega
    · rw [if_neg h2]
      by_cases h3 : verify_future_timestamp now dl = false
      · rw [if_pos h3]
        constructor
        · intro hh
          exact absurd hh (by simp)
        · intro ⟨_, _, hcc⟩
          unfold verify_future_timestamp at h3
          simp at h3
          omega
      · rw [if_neg h3, if_neg (Nat.ne_of_lt hid)]
        constructor
        · intro _
          unfold verify_future_timestamp at h3
          simp at h3
          rw [not_or] at h2
          exact ⟨Nat.le_of_not_lt h2.1, Nat.le_of_not_lt h2.2, h3⟩
        · intro _
          rfl
  · intro hdl
    unfold create_project
    rw [if_neg (Int.not_lt.mpr hg)]
    have hz : dl - now = 0 := Nat.sub_eq_zero_of_le hdl
    by_cases hmin : 0 < C.MIN_PROJECT_DURATION
    · rw [if_pos (Or.inl (by omega))]
    · rw [if_neg (by rw [not_or]; constructor <;> omega),
        if_pos (show verify_future_timestamp now dl = false by
          unfold verify_future_timestamp
          exact decide_eq_false (Nat.not_lt.mpr hdl))]

/-- C7: under the guards of a contribution, the project's new total is the
exact integer sum of the old total and the amount whenever the call returns
successfully, and an `i128` overflow of that sum makes the call trap with no
state change — the stored total is never a wrapped-around sum. -/
theorem contribute_checked_total (C : Consts) (now : Nat) (s : State)
    (pid : Nat) (c : Addr) (amt : Int) (p : Project)
    (hp : alGet s.projects pid = some p) (hA : p.status = .Active)
    (ht : now < p.deadline) (ha : C.MIN_CONTRIBUTION ≤ amt) :
    (inI128 (p.total_raised + amt) = false →
      (contribute C now s pid c amt).ret = .trap ∧
      (contribute C now s pid c amt).state = s) ∧
    ((contribute C now s pid c amt).ret = .ok () →
      alGet (contribute C now s pid c amt).state.projects pid =
        some { p with total_raised := p.total_raised + amt } ∧
      inI128 (p.total_raised + amt) = true) := by
  unfold contribute
  rw [if_neg (Int.not_lt.mpr ha), hp]
  simp only [if_neg (show ¬(p.status ≠ ProjectStatus.Active) from fun hh => hh hA),
    if_neg (Nat.not_le.mpr ht)]
  constructor
  · intro hov
    rw [if_pos hov]
    exact ⟨rfl, rfl⟩
  · intro hok
    by_cases hov : inI128 (p.total_raised + amt) = false
    · rw [if_pos hov] at hok
      exact absurd hok (by simp)
    · rw [if_neg hov] at hok ⊢
      refine ⟨?_, ?_⟩
      · by_cases hov2 : inI128 (alGetD s.contribs (pid, c) 0 + amt) = false
        · rw [if_pos hov2] at hok
          exact absurd hok (by simp)
        · rw [if_neg hov2]
          exact alGet_set_self _ _ _
      · cases hb : inI128 (p.total_raised + amt) with
        | false => exact absurd hb hov
        | true => rfl

/-- C8: a `create_project` call that returns an error writes nothing: the
state, in particular the `NextProjectId` counter and the project map, is
exactly the input state. -/
theorem create_project_error_frame (C : Consts) (now : Nat) (s : State)
    (cr : Addr) (g : Int) (dl : Nat) (tok : Addr) (md : Nat) (e : Error)
    (h : (create_project C now s cr g dl tok md).ret = .err e) :
    (create_project C now s cr g dl tok md).state = s ∧
    (create_project C now s cr g dl tok md).state.nextProjectId
        = s.nextProjectId ∧
    (create_project C now s cr g dl tok md).state.projects = s.projects := by
  by_cases h1 : g < C.MIN_FUNDING_GOAL
  · simp [create_project, h1]
  · by_cases h2 : dl - now < C.MIN_PROJECT_DURATION ∨
        dl - now > C.MAX_PROJECT_DURATION
    · simp [create_project, h1, h2]
    · by_cases h3 : verify_future_timestamp now dl = false
      · simp [create_project, h1, h2, h3]
      · by_cases h4 : nextIdVal s = u64Max
        · exfalso
          simp [create_project, h1, h2, h3, h4] at h
        · exfalso
          simp [create_project, h1, h2, h3, h4] at h

/-- C9: `refund_contributor` never touches the project map, the contribution
records, the admin, the counter or the failure markers; `get_user_contribution`
reads the same amount before and after, and on success the output state is the
input state with exactly the refund marker added. -/
theorem refund_contributor_frame (s : State) (pid : Nat) (c : Addr) :
    (refund_contributor s pid c).state.projects = s.projects ∧
    (refund_contributor s pid c).state.contribs = s.contribs ∧
    (refund_contributor s pid c).state.admin = s.admin ∧
    (refund_contributor s pid c).state.nextProjectId = s.nextProjectId ∧
    (refund_contributor s pid c).state.failureProcessed
        = s.failureProcessed ∧
    get_user_contribution (refund_contributor s pid c).state pid c
        = get_user_contribution s pid c ∧
    (∀ r : Int, (refund_contributor s pid c).ret = .ok r →
      (refund_contributor s pid c).state =
        { s with refundProcessed := (pid, c) :: s.refundProcessed }) := by
  unfold refund_contributor get_user_contribution
  split
  · simp
  · split
    · simp
    · split
      · simp
      · split
        · simp
        · simp

/-- C10: `create_project` demands no authorization from anyone, and its
outcome (and counter effect) is independent of which principal is named as
creator. -/
theorem create_project_permissionless (C : Consts) (now : Nat) (s : State)
    (c₁ c₂ : Addr) (g : Int) (dl : Nat) (tok : Addr) (md : Nat) :
    (create_project C now s c₁ g dl tok md).auths = [] ∧
    (create_project C now s c₁ g dl tok md).ret
        = (create_project C now s c₂ g dl tok md).ret ∧
    (create_project C now s c₁ g dl tok md).state.nextProjectId
        = (create_project C now s c₂ g dl tok md).state.nextProjectId := by
  by_cases h1 : g < C.MIN_FUNDING_GOAL
  · simp [create_project, h1]
  · by_cases h2 : dl - now < C.MIN_PROJECT_DURATION ∨
        dl - now > C.MAX_PROJECT_DURATION
    · simp [create_project, h1, h2]
    · by_cases h3 : verify_future_timestamp now dl = false
      · simp [create_project, h1, h2, h3]
      · by_cases h4 : nextIdVal s = u64Max
        · simp [create_project, h1, h2, h3, h4]
        · simp [create_project, h1, h2, h3, h4]

/-- Two successful lookups of the same key agree. -/
theorem lookup_det {l : List (Nat × Project)} {k : Nat} {p q : Project}
    (hp : alGet l k = some p) (hq : alGet l k = some q) : q = p := by
  rw [hp] at hq
  exact (Option.some.inj hq).symm

/-- The unbootstrapped trace create, contribute, late bootstrap, create is a
valid execution from a fresh deployment. -/
theorem cexA_reachable : Reachable C0 emptyState cexA4 :=
  Relation.ReflTransGen.tail
    (Relation.ReflTransGen.tail
      (Relation.ReflTransGen.tail
        (Relation.ReflTransGen.tail Relation.ReflTransGen.refl
          (Step.createStep 0 emptyState 1 100 10 7 0))
        (Step.contributeStep 1 cexA1 0 2 50))
      (Step.initStep cexA2 9))
    (Step.createStep 0 cexA3 3 100 10 7 0)

/-- C1 counterexample: a state reachable from a fresh deployment through the
core operations alone (create, contribute, late `initialize`, create — the
bootstrap resets the id counter and the second creation overwrites project 0)
in which project 0 has `total_raised` 0 while the recorded contributions for
project 0 sum to 50. -/
theorem total_raised_sum_counterexample :
    Reachable C0 emptyState cexA4 ∧
    (alGet cexA4.projects 0).isSome = true ∧
    (alGet cexA4.projects 0).map Project.total_raised ≠
      some (projSum 0 cexA4.contribs) := by
  refine ⟨cexA_reachable, ?_, ?_⟩ <;> decide

/-- C1 amended: in every state reachable from the bootstrapped state (admin
set before any project exists), every stored project's `total_raised` equals
the sum over all contributors of the recorded cumulative contribution amounts
for that project. -/
theorem total_raised_eq_contrib_sum (C : Consts) (a : Addr) (s : State)
    (hs : Reachable C (bootState a) s) (pid : Nat) (p : Project)
    (hp : alGet s.projects pid = some p) :
    p.total_raised = projSum pid s.contribs :=
  (inv_reachable (inv_boot a) hs).totalSum pid p hp

/-- The unbootstrapped trace create, settle-as-failed, late bootstrap is a
valid execution from a fresh deployment. -/
theorem cexB_reachable : Reachable C0 emptyState cexB3 :=
  Relation.ReflTransGen.tail
    (Relation.ReflTransGen.tail
      (Relation.ReflTransGen.tail Relation.ReflTransGen.refl
        (Step.createStep 0 emptyState 1 100 10 7 0))
      (Step.markStep 11 cexA1 0))
    (Step.initStep cexB2 9)

/-- C5 counterexample: from a reachable (unbootstrapped) state in which
project 0 is `Failed`, one further core operation — a creation after the late
bootstrap reset the id counter — moves project 0's status back to `Active`. -/
theorem status_monotonic_counterexample :
    Reachable C0 emptyState cexB3 ∧
    Step C0 cexB3 cexB4 ∧
    (alGet cexB3.projects 0).map Project.status = some ProjectStatus.Failed ∧
    (alGet cexB4.projects 0).map Project.status = some ProjectStatus.Active :=
  ⟨cexB_reachable, Step.createStep 0 cexB3 3 100 10 7 0, by decide, by decide⟩

/-- C5 amended: from the bootstrapped state, one step changes a stored
project's status only from `Active` to `Completed` or from `Active` to
`Failed` (otherwise the status is unchanged), and a settlement attempt on an
already terminal project past its deadline yields the conflict error
`InvalidProjectStatus`. -/
theorem status_transitions (C : Consts) (a : Addr) (s s' : State) (now : Nat)
    (hs : Reachable C (bootState a) s) (hstep : Step C s s')
    (pid : Nat) (p p' : Project)
    (hp : alGet s.projects pid = some p)
    (hp' : alGet s'.projects pid = some p') :
    (p'.status = p.status ∨
      (p.status = .Active ∧ (p'.status = .Completed ∨ p'.status = .Failed))) ∧
    ((p.status = .Failed ∨ p.status = .Completed) → p.deadline < now →
      (mark_project_failed now s pid).ret = .err .InvalidProjectStatus) := by
  have hInv := inv_reachable (inv_boot a) hs
  constructor
  · cases hstep with
    | initStep s a' =>
      rcases initContract_state s a' with heq | ⟨_, heq⟩ <;> rw [heq] at hp'
      · exact Or.inl (by rw [lookup_det hp hp'])
      · have hp'' : alGet s.projects pid = some p' := hp'
        exact Or.inl (by rw [lookup_det hp hp''])
    | createStep now' s cr g dl tok md =>
      rcases create_project_state C now' s cr g dl tok md with heq | heq <;>
        rw [heq] at hp'
      · exact Or.inl (by rw [lookup_det hp hp'])
      · have hlt : pid < nextIdVal s := hInv.projBound (pid, p) (alGet_mem hp)
        have hp'' : alGet (alSet s.projects (nextIdVal s)
            ⟨cr, g, dl, tok, .Active, md, 0, now'⟩) pid = some p' := hp'
        rw [alGet_set_ne _ _ (Nat.ne_of_lt hlt)] at hp''
        exact Or.inl (by rw [lookup_det hp hp''])
    | contributeStep now' s pid₂ c amt =>
      rcases contribute_state C now' s pid₂ c amt with
        heq | ⟨q, hq, hqA, _, heq⟩ <;> rw [heq] at hp'
      · exact Or.inl (by rw [lookup_det hp hp'])
      · have hp'' : alGet (alSet s.projects pid₂
            { q with total_raised := q.total_raised + amt }) pid = some p' := hp'
        by_cases hpe : pid = pid₂
        · subst hpe
          rw [alGet_set_self] at hp''
          have hqp := lookup_det hp hq
          subst hqp
          injection hp'' with hh
          rw [← hh]
          exact Or.inl rfl
        · rw [alGet_set_ne _ _ hpe] at hp''
          exact Or.inl (by rw [lookup_det hp hp''])
    | markStep now' s pid₂ =>
      rcases mark_state now' s pid₂ with
        heq | ⟨q, hq, hd₂, hqF, hqC, hmk₂, heq⟩ <;> rw [heq] at hp'
      · exact Or.inl (by rw [lookup_det hp hp'])
      · have hp'' : alGet (alSet s.projects pid₂
            { q with status :=
                if q.funding_goal ≤ q.total_raised then ProjectStatus.Completed
                else ProjectStatus.Failed }) pid = some p' := hp'
        by_cases hpe : pid = pid₂
        · subst hpe
          rw [alGet_set_self] at hp''
          have hqp := lookup_det hp hq
          subst hqp
          injection hp'' with hh
          have hA : q.status = ProjectStatus.Active := by
            have hnc := hInv.notCancelled pid q hp
            cases hstat : q.status
            · rfl
            · exact absurd hstat hqC
            · exact absurd hstat hqF
            · exact absurd hstat hnc
          refine Or.inr ⟨hA, ?_⟩
          rw [← hh]
          show (if q.funding_goal ≤ q.total_raised then ProjectStatus.Completed
            else ProjectStatus.Failed) = _ ∨ _
          split
          · exact Or.inl rfl
          · exact Or.inr rfl
        · rw [alGet_set_ne _ _ hpe] at hp''
          exact Or.inl (by rw [lookup_det hp hp''])
    | refundStep s pid₂ c =>
      rcases refund_state s pid₂ c with heq | ⟨_, heq⟩ <;> rw [heq] at hp'
      · exact Or.inl (by rw [lookup_det hp hp'])
      · have hp'' : alGet s.projects pid = some p' := hp'
        exact Or.inl (by rw [lookup_det hp hp''])
  · intro ht hd
    rw [mark_terminal_char now hp hd ht]

/-- C2: on a reachable state with a `Failed` project, an unissued refund and a
positive recorded contribution, `refund_contributor` succeeds exactly once:
it transfers the full recorded cumulative contribution from the escrow back
to the contributor and sets the refund marker, and every subsequent call for
the same pair — after arbitrarily many further operations — returns the
conflict error `InvalidInput` without any transfer or state change. -/
theorem refund_at_most_once (C : Consts) (a : Addr) (s : State) (pid : Nat)
    (c : Addr) (p : Project) (hs : Reachable C (bootState a) s)
    (hp : alGet s.projects pid = some p) (hF : p.status = .Failed)
    (hm : (pid, c) ∉ s.refundProcessed)
    (hc : 0 < alGetD s.contribs (pid, c) 0) :
    (refund_contributor s pid c).ret = .ok (alGetD s.contribs (pid, c) 0) ∧
    (refund_contributor s pid c).transfers =
      [⟨contractAddress, c, p.token, alGetD s.contribs (pid, c) 0⟩] ∧
    (pid, c) ∈ (refund_contributor s pid c).state.refundProcessed ∧
    (∀ u : State, Reachable C (refund_contributor s pid c).state u →
      (refund_contributor u pid c).ret = .err .InvalidInput ∧
      (refund_contributor u pid c).state = u ∧
      (refund_contributor u pid c).transfers = []) := by
  have hchar := refund_success_char hp hF hm hc
  rw [hchar]
  refine ⟨rfl, rfl, List.mem_cons_self _ _, ?_⟩
  intro u hu
  have hInv : Inv s := inv_reachable (inv_boot a) hs
  have hInv1 : Inv ({ s with refundProcessed := (pid, c) :: s.refundProcessed }) :=
    ⟨hInv.adminSome, hInv.projBound, hInv.contribBound, hInv.nodupKeys,
      hInv.totalSum, hInv.notCancelled⟩
  have hp1 : alGet ({ s with
      refundProcessed := (pid, c) :: s.refundProcessed } : State).projects pid
      = some p := hp
  have hpu : alGet u.projects pid = some p :=
    failedProject_reach hInv1 hp1 hF hu
  have hmu : (pid, c) ∈ u.refundProcessed :=
    refundMarker_reach (List.mem_cons_self _ _) hu
  rw [refund_again_char hpu hF hmu]
  exact ⟨rfl, rfl, rfl⟩

/-- The bootstrapped scenario create-then-contribute is a valid execution. -/
theorem witS2_reachable : Reachable C0 (bootState 9) witS2 :=
  Relation.ReflTransGen.tail
    (Relation.ReflTransGen.tail Relation.ReflTransGen.refl
      (Step.createStep 0 (bootState 9) 1 100 10 7 0))
    (Step.contributeStep 1 witS1 0 2 50)

/-- The bootstrapped scenario extended by its settlement step. -/
theorem witS3_reachable : Reachable C0 (bootState 9) witS3 :=
  Relation.ReflTransGen.tail witS2_reachable (Step.markStep 11 witS2 0)

/-- C1 witness: in the concrete bootstrapped run, project 0 holds a total of
50 and the contribution sum evaluates to the same 50. -/
theorem total_raised_eq_contrib_sum_witness :
    Reachable C0 (bootState 9) witS2 ∧
    alGet witS2.projects 0 = some ⟨1, 100, 10, 7, .Active, 0, 50, 0⟩ ∧
    (50 : Int) = projSum 0 witS2.contribs :=
  ⟨witS2_reachable, by decide,
    total_raised_eq_contrib_sum C0 9 witS2 witS2_reachable 0
      ⟨1, 100, 10, 7, .Active, 0, 50, 0⟩ (by decide)⟩

/-- C2 witness: in the concrete failed run, the refund pays out exactly 50
once and the immediate second call returns `InvalidInput`. -/
theorem refund_at_most_once_witness :
    (refund_contributor witS3 0 2).ret = .ok 50 ∧
    (refund_contributor witS3 0 2).transfers =
      [⟨contractAddress, 2, 7, 50⟩] ∧
    (refund_contributor (refund_contributor witS3 0 2).state 0 2).ret =
      .err .InvalidInput := by
  have h := refund_at_most_once C0 9 witS3 0 2 ⟨1, 100, 10, 7, .Failed, 0, 50, 0⟩
    witS3_reachable (by decide) rfl (by decide) (by decide)
  exact ⟨h.1, h.2.1, (h.2.2.2 (refund_contributor witS3 0 2).state
    Relation.ReflTransGen.refl).1⟩

/-- C3 witness: settling the underfunded concrete project at time 11 marks it
`Failed`, emits the failure event and sets the marker. -/
theorem mark_project_failed_spec_witness :
    (mark_project_failed 11 witS1 0).ret = .ok () ∧
    alGet (mark_project_failed 11 witS1 0).state.projects 0 =
      some ⟨1, 100, 10, 7, .Failed, 0, 0, 0⟩ ∧
    (mark_project_failed 11 witS1 0).events = [Event.ProjectFailed 0] ∧
    0 ∈ (mark_project_failed 11 witS1 0).state.failureProcessed := by
  have h := (mark_project_failed_spec 11 witS1 0
    ⟨1, 100, 10, 7, .Active, 0, 0, 0⟩ (by decide)).2
    (by decide) (by decide) (by decide) (by decide)
  exact ⟨h.1, h.2.1, h.2.2.1, h.2.2.2⟩

/-- C4 witness: a second settlement call at time 12 after a successful one at
time 11 returns `InvalidProjectStatus` and changes nothing. -/
theorem mark_second_call_witness :
    (mark_project_failed 12 (mark_project_failed 11 witS1 0).state 0).ret =
      .err .InvalidProjectStatus ∧
    (mark_project_failed 12 (mark_project_failed 11 witS1 0).state 0).state =
      (mark_project_failed 11 witS1 0).state :=
  mark_project_failed_second_call 11 12 witS1 0 (by decide) (by decide)

/-- C5 witness: the settlement step of the concrete run realizes exactly the
allowed `Active` to `Failed` transition. -/
theorem status_transitions_witness :
    Reachable C0 (bootState 9) witS2 ∧
    (ProjectStatus.Failed = ProjectStatus.Active ∨
      (ProjectStatus.Active = ProjectStatus.Active ∧
        (ProjectStatus.Failed = ProjectStatus.Completed ∨
          ProjectStatus.Failed = ProjectStatus.Failed))) :=
  ⟨witS2_reachable,
    (status_transitions C0 9 witS2 witS3 11 witS2_reachable
      (Step.markStep 11 witS2 0) 0 ⟨1, 100, 10, 7, .Active, 0, 50, 0⟩
      ⟨1, 100, 10, 7, .Failed, 0, 50, 0⟩ (by decide) (by decide)).1⟩

/-- C6 witness (amended claim): a creation 17 seconds ahead inside the window
[5, 1000] succeeds, and one whose deadline already lies in the past is
rejected with `InvalidDeadline`. -/
theorem create_project_window_witness :
    C0.MIN_FUNDING_GOAL ≤ 100 ∧ nextIdVal (bootState 9) < u64Max ∧
    (create_project C0 3 (bootState 9) 1 100 20 7 0).ret = .ok 0 ∧
    (create_project C0 30 (bootState 9) 1 100 20 7 0).ret =
      .err .InvalidDeadline :=
  ⟨by decide, by decide,
    (create_project_window C0 3 (bootState 9) 1 100 20 7 0 (by decide)
      (by decide)).1.mpr (by decide),
    (create_project_window C0 30 (bootState 9) 1 100 20 7 0 (by decide)
      (by decide)).2 (by decide)⟩

/-- C7 witness: contributing 10 to a project whose total already sits at the
`i128` maximum traps and leaves the storage untouched. -/
theorem contribute_checked_total_witness :
    (contribute C0 1 bigS 0 2 10).ret = .trap ∧
    (contribute C0 1 bigS 0 2 10).state = bigS :=
  (contribute_checked_total C0 1 bigS 0 2 10
    ⟨1, 100, 10, 7, .Active, 0, i128Max, 0⟩
    (by decide) rfl (by decide) (by decide)).1 (by decide)

/-- C8 witness: a creation rejected for a too-small goal leaves the
bootstrapped state exactly as it was. -/
theorem create_project_error_frame_witness :
    (create_project C0 5 (bootState 9) 1 7 100 7 0).state = bootState 9 := by
  have h := create_project_error_frame C0 5 (bootState 9) 1 7 100 7 0
    .InvalidFundingGoal (by decide)
  exact h.1

/-- C9 witness: the concrete refund leaves the contribution records readable
unchanged and adds only the refund marker. -/
theorem refund_contributor_frame_witness :
    (refund_contributor witS3 0 2).state.contribs = witS3.contribs ∧
    get_user_contribution (refund_contributor witS3 0 2).state 0 2 =
      get_user_contribution witS3 0 2 ∧
    (refund_contributor witS3 0 2).state =
      { witS3 with refundProcessed := (0, 2) :: witS3.refundProcessed } := by
  have h := refund_contributor_frame witS3 0 2
  exact ⟨h.2.1, h.2.2.2.2.2.1, h.2.2.2.2.2.2 50 (by decide)⟩

end NovaFund
